import Mathlib

/-
Verification of the page-segmentation core of pythonBusinessTools.

The Python sources are shallowly embedded: page texts are Lean Strings,
documents are lists of pages, the per-page loops of businessTools.py are
structural recursions, and the configurable order-id regular expression is
abstracted as a function from a line to the optional captured group.
Only the "\n" line separator of the sources' splitlines/split is modelled.
-/

namespace BTools

/-- Prefix test on character lists (used to model Python substring search). -/
def listIsPre : List Char → List Char → Bool
  | [], _ => true
  | _ :: _, [] => false
  | a :: as, b :: bs => a == b && listIsPre as bs

/-- Substring containment on character lists: Python's `needle in hay`. -/
def listSub (needle : List Char) : List Char → Bool
  | [] => listIsPre needle []
  | c :: rest => listIsPre needle (c :: rest) || listSub needle rest

/-- Python's `needle in hay` on strings. -/
def strContains (hay needle : String) : Bool :=
  listSub needle.data hay.data

/-- Python's `str.strip()` (whitespace trimmed from both ends). -/
def pyStrip (s : String) : String :=
  ⟨((s.data.dropWhile Char.isWhitespace).reverse.dropWhile Char.isWhitespace).reverse⟩

/-- Split a character list at each newline; the list of chunks is never empty. -/
def splitOnNl : List Char → List (List Char)
  | [] => [[]]
  | c :: rest =>
    match splitOnNl rest with
    | [] => [[c]]
    | h :: t => if c = '\n' then [] :: h :: t else (c :: h) :: t

/-- Python's `str.splitlines()` for newline-separated text: like split on the
newline character, but a trailing empty piece is dropped (so "" gives []). -/
def pySplitlines (s : String) : List String :=
  let chunks := splitOnNl s.data
  let chunks := match chunks.getLast? with
    | some [] => chunks.dropLast
    | _ => chunks
  chunks.map (fun cs => ⟨cs⟩)

/-- Python's `str.split('\n')` (keeps trailing empty pieces; "" gives [""]). -/
def pySplitAll (s : String) : List String :=
  (splitOnNl s.data).map (fun cs => ⟨cs⟩)

/-- Python's `str.isdigit()` for ASCII text: nonempty and all digits. -/
def isDigitStr (s : String) : Bool :=
  !s.data.isEmpty && s.data.all Char.isDigit

/-- Python's `re.search(r"(\d+)", s)`: the first contiguous run of digits. -/
def firstDigitRun (s : String) : Option String :=
  match s.data.dropWhile (fun c => !c.isDigit) with
  | [] => none
  | c :: rest => some ⟨c :: rest.takeWhile Char.isDigit⟩

/-- The characters Windows forbids in file names, from sanitize_filename. -/
def invalidChar (c : Char) : Bool :=
  c == '<' || c == '>' || c == ':' || c == '"' || c == '/' ||
  c == '\\' || c == '|' || c == '?' || c == '*'

/-- businessTools.py sanitize_filename: deletes the invalid characters. -/
def sanitize_filename (s : String) : String :=
  ⟨s.data.filter (fun c => !invalidChar c)⟩

/-- PDFsIndividualFileExtraction_PartyName_OrderID.py sanitize_name:
replaces each invalid character with an underscore. -/
def sanitize_name (s : String) : String :=
  ⟨s.data.map (fun c => if invalidChar c then '_' else c)⟩

/-- Bounds test `0 <= idx < n` from extract_party_name_dynamic. -/
def inRangeB (idx : Int) (n : Nat) : Bool :=
  decide (0 ≤ idx) && decide (idx < (n : Int))

/-- The loop of extract_party_name_dynamic: scan the lines from index `i`;
at a line containing the keyword with the offset target in range, return the
stripped target line; otherwise keep scanning (the Python loop breaks only
after an in-range hit). -/
def partyAux (lines : List String) (kw : String) (off : Int) :
    List String → Nat → Option String
  | [], _ => none
  | l :: rest, i =>
    if strContains l kw then
      if inRangeB ((i : Int) + off) lines.length then
        some (pyStrip (lines.getD ((i : Int) + off).toNat ""))
      else partyAux lines kw off rest (i + 1)
    else partyAux lines kw off rest (i + 1)

/-- businessTools.py extract_party_name_dynamic. -/
def extract_party_name_dynamic (text kw : String) (off : Int) : Option String :=
  partyAux (pySplitlines text) kw off (pySplitlines text) 0

/-- The inner while-loop of extract_order_id_dynamic: the adjacent-line scan.
It skips lines that strip to "" or to exactly ":", and at the first other
line returns the line if it is all digits, else its first digit run, else
stops (the Python `break`). -/
def orderScan : List String → Option String
  | [] => none
  | l :: rest =>
    if pyStrip l = ":" then orderScan rest
    else if pyStrip l = "" then orderScan rest
    else if isDigitStr (pyStrip l) then some (pyStrip l)
    else
      match firstDigitRun (pyStrip l) with
      | some v => some v
      | none => none

/-- The outer loop of extract_order_id_dynamic: at each line containing the
order keyword, try the configured pattern on that line, then the adjacent-line
scan; if both fail the loop continues with the following lines. -/
def orderLoop (kw : String) (pat : String → Option String) :
    List String → Option String
  | [] => none
  | l :: rest =>
    if strContains l kw then
      match pat l with
      | some v => some v
      | none =>
        match orderScan rest with
        | some v => some v
        | none => orderLoop kw pat rest
    else orderLoop kw pat rest

/-- businessTools.py extract_order_id_dynamic; `pat` abstracts
`re.search(regex_pattern, line)` returning the first captured group. -/
def extract_order_id_dynamic (text kw : String) (pat : String → Option String) :
    Option String :=
  orderLoop kw pat (pySplitlines text)

/-- One attempt of the default pattern `ID :\s*(\d+)` at the head of `cs`. -/
def defaultPatAt (cs : List Char) : Option String :=
  if listIsPre "ID :".data cs then
    match (cs.drop 4).dropWhile Char.isWhitespace with
    | [] => none
    | c :: rest => if c.isDigit then some ⟨c :: rest.takeWhile Char.isDigit⟩ else none
  else none

/-- Leftmost search with defaultPatAt, as Python's re.search does. -/
def defaultPatSearch : List Char → Option String
  | [] => none
  | c :: rest =>
    match defaultPatAt (c :: rest) with
    | some v => some v
    | none => defaultPatSearch rest

/-- The default order regex `ID :\s*(\d+)` of businessTools.py. -/
def defaultOrderPat (line : String) : Option String :=
  defaultPatSearch line.data

/-- A page of an opened PDF document: `directText` is what
`page.get_text("text")` returns (the embedded text layer, empty for a page
with no text layer), and `ocrText` is what `pytesseract.image_to_string`
would return on the rendered page image. -/
structure Page where
  directText : String
  ocrText : String

/-- What `page.get_text("text")` yields for a page. -/
def pageGetText (p : Page) : String := p.directText

/-- Python truthiness of an optional string: None and "" are falsy. -/
def truthyStr : Option String → Option String
  | some s => if s = "" then none else some s
  | none => none

/-- The party marker of a page text: the extracted party name when the
Python guard `if party:` holds, i.e. the value is neither None nor "". -/
def partyMarker (kw : String) (off : Int) (text : String) : Option String :=
  truthyStr (extract_party_name_dynamic text kw off)

/-- The combined marker of extract_pdf_by_order_id: present only when both
the party name and the order id are truthy (`if party and order_id:`). -/
def orderMarker (kw : String) (off : Int) (okw : String)
    (pat : String → Option String) (text : String) : Option (String × String) :=
  match truthyStr (extract_party_name_dynamic text kw off),
        truthyStr (extract_order_id_dynamic text okw pat) with
  | some p, some o => some (p, o)
  | _, _ => none

/-- One emitted segment: the tuple (start_page, end_page, label) of the
Python `splits` lists, with inclusive 0-based page indices. -/
structure Span (L : Type) where
  startPage : Nat
  endPage : Nat
  label : L
deriving DecidableEq

/-- The page loop shared by split_pdf_by_party_name and
extract_pdf_by_order_id: `m` extracts the marker of one page text, `i` is the
index of the next page, `cur` is the open segment (start page and label,
Python's current_* variables) and `acc` the splits emitted so far.  A page
with a marker closes any open segment at index i - 1 and opens a new one at
i; after the last page the open segment is closed at the last page. -/
def segLoop (m : α → Option L) : List α → Nat → Option (Nat × L) →
    List (Span L) → List (Span L)
  | [], i, cur, acc =>
    match cur with
    | some (s, l) => acc ++ [⟨s, i - 1, l⟩]
    | none => acc
  | t :: rest, i, cur, acc =>
    match m t with
    | some p =>
      match cur with
      | some (s, l) => segLoop m rest (i + 1) (some (i, p)) (acc ++ [⟨s, i - 1, l⟩])
      | none => segLoop m rest (i + 1) (some (i, p)) acc
    | none => segLoop m rest (i + 1) cur acc

/-- The splits produced for a whole document by the loop above. -/
def segSpans (m : α → Option L) (pages : List α) : List (Span L) :=
  segLoop m pages 0 none []

/-- businessTools.py split_pdf_by_party_name, as the list of spans it
computes and then saves (the save loop is modelled by saveAll below). -/
def split_pdf_by_party_name (doc : List Page) (kw : String) (off : Int) :
    List (Span String) :=
  segSpans (fun pg => partyMarker kw off (pageGetText pg)) doc

/-- businessTools.py extract_pdf_by_order_id, as the list of spans it
computes; labels are (party name, order id) pairs. -/
def extract_pdf_by_order_id (doc : List Page) (kw : String) (off : Int)
    (okw : String) (pat : String → Option String) : List (Span (String × String)) :=
  segSpans (fun pg => orderMarker kw off okw pat (pageGetText pg)) doc

/-- businessTools.py extract_text_from_pdf: per page, the direct text layer
if it strips to something nonempty, else the OCR text; the second component
counts how many times the OCR fallback ran (one per blank-direct page). -/
def extract_text_from_pdf : List Page → String × Nat
  | [] => ("", 0)
  | p :: rest =>
    if pyStrip p.directText = "" then
      (p.ocrText ++ (extract_text_from_pdf rest).1, (extract_text_from_pdf rest).2 + 1)
    else
      (p.directText ++ (extract_text_from_pdf rest).1, (extract_text_from_pdf rest).2)

/-- The pages of a span, in order: start_page .. end_page inclusive. -/
def spanPages (sp : Span L) : List Nat :=
  List.range' sp.startPage (sp.endPage + 1 - sp.startPage)

/-- The file name split_pdf_by_party_name builds for one span. -/
def splitFilename (label : String) : String :=
  sanitize_filename label ++ ".pdf"

/-- The file name extract_pdf_by_order_id builds for one span. -/
def extractFilename (label : String × String) : String :=
  sanitize_filename (label.1 ++ "_" ++ label.2) ++ ".pdf"

/-- Writing one file into a directory modelled as an association list from
file name to content: an existing name is overwritten in place, a new name
is appended. -/
def fsWrite (fs : List (String × List Nat)) (name : String) (content : List Nat) :
    List (String × List Nat) :=
  if fs.any (fun e => e.1 == name) then
    fs.map (fun e => if e.1 == name then (e.1, content) else e)
  else fs ++ [(name, content)]

/-- The save loops of split_pdf_by_party_name / extract_pdf_by_order_id
(lines 154-162 and 200-208): each span is saved under its own file name,
with no collision handling of any kind. -/
def saveAll (fname : L → String) (spans : List (Span L))
    (fs : List (String × List Nat)) : List (String × List Nat) :=
  spans.foldl (fun fs sp => fsWrite fs (fname sp.label) (spanPages sp)) fs

/-- singlePDF_MultiExtraction_PartyName.py extract_party_name: scans pairs of
adjacent lines of text.split('\n') starting at index 1, and on the first line
containing "M/s." takes the stripped previous line. -/
def spPairScan : List String → Option String
  | a :: b :: rest =>
    if strContains b "M/s." then some (pyStrip a) else spPairScan (b :: rest)
  | _ => none

/-- singlePDF_MultiExtraction_PartyName.py extract_party_name: the scanned
name, sanitized then stripped, or None when the scan fails or the raw name
is empty (the `if party_name else None` guard). -/
def sp_extract_party_name (text : String) : Option String :=
  match spPairScan (pySplitAll text) with
  | some pn => if pn = "" then none else some (pyStrip (sanitize_filename pn))
  | none => none

/-- Appending a page range under a party key in the defaultdict(list) of
singlePDF_MultiExtraction_PartyName.py (insertion order preserved). -/
def dictAppend (d : List (String × List (Nat × Nat))) (k : String)
    (v : Nat × Nat) : List (String × List (Nat × Nat)) :=
  if d.any (fun e => e.1 == k) then
    d.map (fun e => if e.1 == k then (e.1, e.2 ++ [v]) else e)
  else d ++ [(k, [v])]

/-- The page loop of singlePDF_MultiExtraction_PartyName.py
split_pdf_by_party_name: like segLoop, but the emitted ranges are grouped by
party name in a dict instead of kept as a flat list. -/
def spSplitLoop : List String → Nat → Option (String × Nat) →
    List (String × List (Nat × Nat)) → List (String × List (Nat × Nat))
  | [], i, cur, d =>
    match cur with
    | some (pn, s) => dictAppend d pn (s, i - 1)
    | none => d
  | t :: rest, i, cur, d =>
    match truthyStr (sp_extract_party_name t) with
    | some pn' =>
      match cur with
      | some (pn, s) => spSplitLoop rest (i + 1) (some (pn', i)) (dictAppend d pn (s, i - 1))
      | none => spSplitLoop rest (i + 1) (some (pn', i)) d
    | none => spSplitLoop rest (i + 1) cur d

/-- singlePDF_MultiExtraction_PartyName.py split_pdf_by_party_name: the dict
from party name to the list of its page ranges. -/
def sp_split_pdf_by_party_name (pages : List String) :
    List (String × List (Nat × Nat)) :=
  spSplitLoop pages 0 none []

/-- singlePDF_MultiExtraction_PartyName.py save_split_pdfs: one output file
per dict key, holding the pages of all the key's ranges concatenated. -/
def save_split_pdfs (splits : List (String × List (Nat × Nat))) :
    List (String × List Nat) :=
  splits.map (fun e =>
    (e.1 ++ ".pdf", e.2.foldr (fun r acc => List.range' r.1 (r.2 + 1 - r.1) ++ acc) []))

/-- One input file of a batch: its directory-listing name, and the opened
document, or none when `fitz.open` raises on it. -/
structure InputFile where
  name : String
  doc : Option (List Page)

/-- Python's `str.lower()` on a file name. -/
def lowerStr (s : String) : String := ⟨s.data.map Char.toLower⟩

/-- Suffix test on character lists. -/
def listIsSuffix (a b : List Char) : Bool := listIsPre a.reverse b.reverse

/-- Python's `filename.lower().endswith(".pdf")`. -/
def endsWithPdf (s : String) : Bool := listIsSuffix ".pdf".data (lowerStr s).data

/-- The message split_pdf_by_party_name returns for a processed file. -/
def splitMsg (n : String) : String := "Processed (Split by Party Name): " ++ n

/-- The message extract_pdf_by_order_id returns for a processed file. -/
def extractMsg (n : String) : String := "Processed (Extract by Order ID): " ++ n

/-- The directory loop shared by process_split_operation and
process_extract_operation: for each ".pdf" file append the per-file message;
a file whose document fails to open raises, which propagates out of the loop
(Except.error), discarding the messages collected so far. -/
def processOp (msg : String → String) : List InputFile → Except String (List String)
  | [] => .ok []
  | f :: rest =>
    if endsWithPdf f.name then
      match f.doc with
      | none => .error f.name
      | some _ =>
        match processOp msg rest with
        | .ok msgs => .ok (msg f.name :: msgs)
        | .error e => .error e
    else processOp msg rest

/-- businessTools.py process_split_operation. -/
def process_split_operation : List InputFile → Except String (List String) :=
  processOp splitMsg

/-- businessTools.py process_extract_operation. -/
def process_extract_operation : List InputFile → Except String (List String) :=
  processOp extractMsg

/-- Modelled from the claim C4 wording (the offset rule of the spec): match
only the FIRST line containing the keyword, and return "not found" when its
offset target is out of range. -/
def claimPartyExtract (text kw : String) (off : Int) : Option String :=
  let lines := pySplitlines text
  match lines.enum.find? (fun e => strContains e.2 kw) with
  | some e =>
    if inRangeB ((e.1 : Int) + off) lines.length then
      some (pyStrip (lines.getD ((e.1 : Int) + off).toNat ""))
    else none
  | none => none

/-- A line consisting solely of punctuation, as the claim C3 wording has it:
nonempty and made only of non-alphanumeric, non-whitespace characters. -/
def isPunctLine (s : String) : Bool :=
  !s.data.isEmpty && s.data.all (fun c => !c.isAlphanum && !c.isWhitespace)

/-- Modelled from the claim C3 wording: the adjacent-line scan skips lines
consisting solely of punctuation (besides empty lines) and stops at the
first other non-empty line. -/
def claimScan : List String → Option String
  | [] => none
  | l :: rest =>
    let c := pyStrip l
    if c = "" then claimScan rest
    else if isPunctLine c then claimScan rest
    else if isDigitStr c then some c
    else
      match firstDigitRun c with
      | some v => some v
      | none => none

/-- Modelled from the claim C3 wording: the order-id extractor with the
claimed punctuation-skipping fallback scan on the first keyword line. -/
def claimOrderExtract (text kw : String) (pat : String → Option String) :
    Option String :=
  let lines := pySplitlines text
  match lines.enum.find? (fun e => strContains e.2 kw) with
  | some e =>
    match pat e.2 with
    | some v => some v
    | none => claimScan (lines.drop (e.1 + 1))
  | none => none

/-- Well-formed span lists: nonempty, first span starts at `f`, consecutive
spans are contiguous (next start = previous end + 1, the tie-break rule),
every span has start ≤ end, and the last span ends at `last`.  This single
predicate expresses the partition property of claim C1. -/
def spanChainB : Nat → Nat → List (Span L) → Bool
  | _, _, [] => false
  | f, last, [sp] => decide (sp.startPage = f ∧ f ≤ sp.endPage ∧ sp.endPage = last)
  | f, last, sp :: sp' :: rest =>
    decide (sp.startPage = f ∧ f ≤ sp.endPage ∧ sp'.startPage = sp.endPage + 1) &&
    spanChainB (sp.endPage + 1) last (sp' :: rest)

/-- The 5-page example document of the spec: page 1 introduces "Acme Corp",
page 3 introduces "Beta Ltd", pages 0, 2, 4 carry no marker. -/
def doc5 : List Page :=
  [⟨"p0", ""⟩, ⟨"Acme Corp\nM/s. Acme", ""⟩, ⟨"p2", ""⟩,
    ⟨"Beta Ltd\nM/s. Beta", ""⟩, ⟨"p4", ""⟩]

/-- A 3-page document whose pages 0 and 2 carry party and order markers. -/
def doc3 : List Page :=
  [⟨"A\nM/s. a\nID : 11", ""⟩, ⟨"z", ""⟩, ⟨"B\nM/s. b\nID : 22", ""⟩]

/-- A 2-page document whose two pages carry the same party marker "A". -/
def docAA : List Page := [⟨"A\nM/s. x", ""⟩, ⟨"A\nM/s. x", ""⟩]

/-- A 2-page document: page 0 has a blank direct layer, page 1 direct text. -/
def docOcr : List Page := [⟨"", "ocr text"⟩, ⟨"direct", "x"⟩]

example : extract_party_name_dynamic "Acme Corp\nM/s. Acme" "M/s." (-1) = some "Acme Corp" := by decide
example : extract_party_name_dynamic "x" "M/s." (-1) = none := by decide
example : extract_order_id_dynamic "ID : 4521" "ID :" defaultOrderPat = some "4521" := by decide
example : extract_order_id_dynamic "ID :\n:\n4521" "ID :" defaultOrderPat = some "4521" := by decide
example : extract_order_id_dynamic "ID :\n--\n123" "ID :" defaultOrderPat = none := by decide
example : extract_party_name_dynamic "M/s. A\nM/s. B" "M/s." (-1) = some "M/s. A" := by decide
example : claimOrderExtract "ID :\n--\n123" "ID :" defaultOrderPat = some "123" := by decide
example : claimPartyExtract "M/s. A\nM/s. B" "M/s." (-1) = none := by decide
example :
    split_pdf_by_party_name
      [⟨"p0", ""⟩, ⟨"Acme Corp\nM/s. Acme", ""⟩, ⟨"p2", ""⟩, ⟨"Beta Ltd\nM/s. Beta", ""⟩, ⟨"p4", ""⟩]
      "M/s." (-1) =
    [⟨1, 2, "Acme Corp"⟩, ⟨3, 4, "Beta Ltd"⟩] := by decide
example :
    sp_split_pdf_by_party_name ["A\nM/s. x", "A\nM/s. x"] = [("A", [(0, 0), (1, 1)])] := by decide
example :
    save_split_pdfs (sp_split_pdf_by_party_name ["A\nM/s. x", "A\nM/s. x"]) =
    [("A.pdf", [0, 1])] := by decide
example :
    process_split_operation [⟨"a.pdf", some []⟩, ⟨"b.pdf", none⟩, ⟨"c.pdf", some []⟩] =
    .error "b.pdf" := rfl
example :
    extract_pdf_by_order_id
      [⟨"A\nM/s. a\nID : 11", ""⟩, ⟨"z", ""⟩, ⟨"B\nM/s. b\nID : 22", ""⟩]
      "M/s." (-1) "ID :" defaultOrderPat =
    [⟨0, 1, ("A", "11")⟩, ⟨2, 2, ("B", "22")⟩] := by decide
example : extract_text_from_pdf [⟨"", "ocr text"⟩, ⟨"direct", "x"⟩] = ("ocr textdirect", 1) := by decide


lemma filter_self_idem (p : α → Bool) :
    ∀ l : List α, (l.filter p).filter p = l.filter p := by
  intro l
  induction l with
  | nil => rfl
  | cons a t ih => cases h : p a <;> simp [List.filter_cons, h, ih]

lemma filter_self_all (p : α → Bool) :
    ∀ l : List α, (l.filter p).all p = true := by
  intro l
  induction l with
  | nil => rfl
  | cons a t ih => cases h : p a <;> simp [List.filter_cons, h, ih]

lemma replChar_fix (c : Char) :
    (if invalidChar (if invalidChar c then '_' else c) then '_'
      else if invalidChar c then '_' else c) = if invalidChar c then '_' else c := by
  by_cases h : invalidChar c = true <;> simp [h]

lemma replChar_valid (c : Char) :
    invalidChar (if invalidChar c then '_' else c) = false := by
  by_cases h : invalidChar c = true
  · simp [h]
    decide
  · simp only [h, if_false, if_neg h]
    exact Bool.eq_false_iff.mpr h

/-- C7: filename sanitization is idempotent and its output never contains
one of the nine Windows-invalid characters; this holds both for
sanitize_filename of businessTools.py (which deletes them) and for
sanitize_name of PDFsIndividualFileExtraction_PartyName_OrderID.py (which
replaces them by an underscore). -/
theorem c7_sanitize_idempotent_and_clean (x : String) :
    sanitize_filename (sanitize_filename x) = sanitize_filename x ∧
    (sanitize_filename x).data.all (fun c => !invalidChar c) = true ∧
    sanitize_name (sanitize_name x) = sanitize_name x ∧
    (sanitize_name x).data.all (fun c => !invalidChar c) = true := by
  refine ⟨?_, ?_, ?_, ?_⟩
  · show String.mk ((x.data.filter _).filter _) = String.mk (x.data.filter _)
    rw [filter_self_idem]
  · exact filter_self_all _ x.data
  · show String.mk ((x.data.map _).map _) = String.mk (x.data.map _)
    rw [List.map_map]
    refine congrArg String.mk (List.map_congr_left fun c _ => ?_)
    exact replChar_fix c
  · show (x.data.map _).all _ = true
    rw [List.all_map]
    refine List.all_eq_true.mpr fun c _ => ?_
    show (!invalidChar (if invalidChar c then '_' else c)) = true
    rw [replChar_valid]
    rfl

lemma segLoop_append (m : α → Option L) :
    ∀ (pages : List α) (i : Nat) (cur : Option (Nat × L))
    (acc acc' : List (Span L)),
    segLoop m pages i cur (acc ++ acc') = acc ++ segLoop m pages i cur acc' := by
  intro pages
  induction pages with
  | nil =>
    intro i cur acc acc'
    cases cur with
    | none => simp [segLoop]
    | some sl => cases sl with | mk s l => simp [segLoop]
  | cons t rest ih =>
    intro i cur acc acc'
    cases hm : m t with
    | none =>
      cases cur with
      | none => simp only [segLoop, hm]; exact ih _ _ _ _
      | some sl => cases sl with | mk s l => simp only [segLoop, hm]; exact ih _ _ _ _
    | some p =>
      cases cur with
      | none => simp only [segLoop, hm]; exact ih _ _ _ _
      | some sl =>
        cases sl with
        | mk s l =>
          simp only [segLoop, hm, List.append_assoc]
          exact ih _ _ _ _

lemma segLoop_acc (m : α → Option L) (pages : List α) (i : Nat)
    (cur : Option (Nat × L)) (acc : List (Span L)) :
    segLoop m pages i cur acc = acc ++ segLoop m pages i cur [] := by
  have h := segLoop_append m pages i cur acc []
  simpa using h

lemma spanChainB_head {L : Type} (f last : Nat) :
    ∀ (sps : List (Span L)), spanChainB f last sps = true →
    ∃ sp rest, sps = sp :: rest ∧ sp.startPage = f := by
  intro sps h
  match sps with
  | [] => simp [spanChainB] at h
  | [sp] =>
    simp only [spanChainB, decide_eq_true_eq] at h
    exact ⟨sp, [], rfl, h.1⟩
  | sp :: sp' :: rest =>
    simp only [spanChainB, Bool.and_eq_true, decide_eq_true_eq] at h
    exact ⟨sp, sp' :: rest, rfl, h.1.1⟩

lemma segLoop_chain (m : α → Option L) :
    ∀ (pages : List α) (i s : Nat) (l : L), s < i →
    spanChainB s (i + pages.length - 1) (segLoop m pages i (some (s, l)) []) = true := by
  intro pages
  induction pages with
  | nil =>
    intro i s l hsi
    simp only [segLoop, List.length_nil, List.nil_append]
    simp only [spanChainB, decide_eq_true_eq]
    refine ⟨trivial, by omega, by omega⟩
  | cons t rest ih =>
    intro i s l hsi
    have harith : i + (t :: rest).length - 1 = (i + 1) + rest.length - 1 := by
      simp only [List.length_cons]; omega
    rw [harith]
    cases hm : m t with
    | none =>
      simp only [segLoop, hm]
      exact ih (i + 1) s l (by omega)
    | some p =>
      simp only [segLoop, hm]
      rw [segLoop_acc]
      have hch := ih (i + 1) i p (by omega)
      obtain ⟨sp', rest', htail, hstart⟩ := spanChainB_head _ _ _ hch
      rw [htail] at hch ⊢
      simp only [List.nil_append, List.cons_append, List.singleton_append]
      simp only [spanChainB, Bool.and_eq_true, decide_eq_true_eq]
      have h1 : i - 1 + 1 = i := by omega
      rw [h1]
      exact ⟨⟨trivial, by omega, by omega⟩, hch⟩

lemma segLoop_chain_first (m : α → Option L) :
    ∀ (pages : List α) (i k : Nat) (hk : k < pages.length),
    (m (pages.get ⟨k, hk⟩)).isSome = true →
    (∀ j (hj : j < pages.length), j < k → m (pages.get ⟨j, hj⟩) = none) →
    spanChainB (i + k) (i + pages.length - 1) (segLoop m pages i none []) = true := by
  intro pages
  induction pages with
  | nil =>
    intro i k hk
    exact absurd hk (by simp)
  | cons t rest ih =>
    intro i k hk hmk hfirst
    have harith : i + (t :: rest).length - 1 = (i + 1) + rest.length - 1 := by
      simp only [List.length_cons]; omega
    rw [harith]
    cases k with
    | zero =>
      have hm : (m t).isSome = true := hmk
      obtain ⟨p, hp⟩ := Option.isSome_iff_exists.mp hm
      simp only [segLoop, hp]
      have := segLoop_chain m rest (i + 1) i p (by omega)
      simpa using this
    | succ k' =>
      have h0 : m t = none := hfirst 0 (by simp) (by omega)
      simp only [segLoop, h0]
      have hk' : k' < rest.length := by
        simp [List.length_cons] at hk; omega
      have hmk' : (m (rest.get ⟨k', hk'⟩)).isSome = true := hmk
      have hfirst' : ∀ j (hj : j < rest.length), j < k' →
          m (rest.get ⟨j, hj⟩) = none := by
        intro j hj hjk
        exact hfirst (j + 1) (by simp [List.length_cons]; omega) (by omega)
      have := ih (i + 1) k' hk' hmk' hfirst'
      have harith2 : i + 1 + k' = i + (k' + 1) := by omega
      rw [harith2] at this
      exact this

lemma spanChainB_ge {L : Type} (last : Nat) :
    ∀ (sps : List (Span L)) (f : Nat), spanChainB f last sps = true →
    ∀ sp ∈ sps, f ≤ sp.startPage := by
  intro sps
  induction sps with
  | nil => intro f h; simp [spanChainB] at h
  | cons sp tail ih =>
    intro f h b hb
    cases tail with
    | nil =>
      simp only [spanChainB, decide_eq_true_eq] at h
      simp only [List.mem_singleton] at hb
      subst hb; omega
    | cons sp' rest =>
      simp only [spanChainB, Bool.and_eq_true, decide_eq_true_eq] at h
      rcases List.mem_cons.mp hb with hb | hb
      · subst hb; omega
      · have := ih (sp.endPage + 1) h.2 b hb
        omega

lemma spanChainB_pairwise {L : Type} (last : Nat) :
    ∀ (sps : List (Span L)) (f : Nat), spanChainB f last sps = true →
    sps.Pairwise (fun a b => a.endPage < b.startPage) := by
  intro sps
  induction sps with
  | nil => intro f _; exact List.Pairwise.nil
  | cons sp tail ih =>
    intro f h
    cases tail with
    | nil => simp
    | cons sp' rest =>
      simp only [spanChainB, Bool.and_eq_true, decide_eq_true_eq] at h
      refine List.pairwise_cons.mpr ⟨?_, ih (sp.endPage + 1) h.2⟩
      intro b hb
      have := spanChainB_ge last (sp' :: rest) (sp.endPage + 1) h.2 b hb
      omega

lemma getD_of_lt (l : List α) (i : Nat) (d : α) (h : i < l.length) :
    l.getD i d = l.get ⟨i, h⟩ := by
  induction l generalizing i with
  | nil => exact absurd h (by simp)
  | cons a t ih =>
    cases i with
    | zero => rfl
    | succ i' => exact ih i' (by simp at h; omega)

lemma segSpans_partition (m : α → Option L) (pages : List α) (d : α) (k : Nat)
    (hk : k < pages.length) (hm : (m (pages.getD k d)).isSome = true)
    (hf : ∀ j, j < k → m (pages.getD j d) = none) :
    spanChainB k (pages.length - 1) (segSpans m pages) = true ∧
    (segSpans m pages).Pairwise (fun a b => a.endPage < b.startPage) := by
  have hm' : (m (pages.get ⟨k, hk⟩)).isSome = true := by
    rw [← getD_of_lt pages k d hk]; exact hm
  have hf' : ∀ j (hj : j < pages.length), j < k → m (pages.get ⟨j, hj⟩) = none := by
    intro j hj hjk
    rw [← getD_of_lt pages j d hj]; exact hf j hjk
  have hch := segLoop_chain_first m pages 0 k hk hm' hf'
  simp only [Nat.zero_add] at hch
  exact ⟨hch, spanChainB_pairwise _ _ _ hch⟩

/-- C1: for both segmentation functions, when some page carries a marker
(page k being the first), the emitted spans form a chain of pairwise
disjoint, contiguous, inclusive page ranges ordered by start page that
exactly covers pages k .. page_count - 1: the first span starts at k, each
next span starts right after the previous span's end (the page that opens a
new span closes the previous one at current_page_index - 1), and the last
span ends at the last page, so no page is double-counted or skipped. -/
theorem c1_spans_partition :
    (∀ (doc : List Page) (kw : String) (off : Int) (k : Nat),
      k < doc.length →
      (partyMarker kw off (pageGetText (doc.getD k ⟨"", ""⟩))).isSome = true →
      (∀ j, j < k → partyMarker kw off (pageGetText (doc.getD j ⟨"", ""⟩)) = none) →
      spanChainB k (doc.length - 1) (split_pdf_by_party_name doc kw off) = true ∧
      (split_pdf_by_party_name doc kw off).Pairwise
        (fun a b => a.endPage < b.startPage)) ∧
    (∀ (doc : List Page) (kw : String) (off : Int) (okw : String)
      (pat : String → Option String) (k : Nat),
      k < doc.length →
      (orderMarker kw off okw pat (pageGetText (doc.getD k ⟨"", ""⟩))).isSome = true →
      (∀ j, j < k →
        orderMarker kw off okw pat (pageGetText (doc.getD j ⟨"", ""⟩)) = none) →
      spanChainB k (doc.length - 1)
        (extract_pdf_by_order_id doc kw off okw pat) = true ∧
      (extract_pdf_by_order_id doc kw off okw pat).Pairwise
        (fun a b => a.endPage < b.startPage)) := by
  constructor
  · intro doc kw off k hk hm hf
    exact segSpans_partition _ doc ⟨"", ""⟩ k hk hm hf
  · intro doc kw off okw pat k hk hm hf
    exact segSpans_partition _ doc ⟨"", ""⟩ k hk hm hf



/-- Witness for C1: the theorem applied to the spec's 5-page example (first
marker on page 1) and to a 3-page party+order document (first marker on
page 0). -/
theorem c1_spans_partition_witness :
    (spanChainB 1 4 (split_pdf_by_party_name doc5 "M/s." (-1)) = true ∧
      (split_pdf_by_party_name doc5 "M/s." (-1)).Pairwise
        (fun a b => a.endPage < b.startPage)) ∧
    (spanChainB 0 2
        (extract_pdf_by_order_id doc3 "M/s." (-1) "ID :" defaultOrderPat) = true ∧
      (extract_pdf_by_order_id doc3 "M/s." (-1) "ID :" defaultOrderPat).Pairwise
        (fun a b => a.endPage < b.startPage)) := by
  constructor
  · exact c1_spans_partition.1 doc5 "M/s." (-1) 1 (by decide) (by decide) (by decide)
  · exact c1_spans_partition.2 doc3 "M/s." (-1) "ID :" defaultOrderPat 0
      (by decide) (by decide) (by decide)

lemma segLoop_mem_acc (m : α → Option L) (pages : List α) (i : Nat)
    (cur : Option (Nat × L)) (acc : List (Span L)) (x : Span L) (hx : x ∈ acc) :
    x ∈ segLoop m pages i cur acc := by
  rw [segLoop_acc]
  exact List.mem_append_left _ hx

lemma segLoop_mem_cur (m : α → Option L) :
    ∀ (pages : List α) (i s : Nat) (l : L) (acc : List (Span L)),
    ∃ e, (⟨s, e, l⟩ : Span L) ∈ segLoop m pages i (some (s, l)) acc := by
  intro pages
  induction pages with
  | nil =>
    intro i s l acc
    exact ⟨i - 1, by simp [segLoop]⟩
  | cons t rest ih =>
    intro i s l acc
    cases hm : m t with
    | none =>
      simp only [segLoop, hm]
      exact ih (i + 1) s l acc
    | some p =>
      simp only [segLoop, hm]
      refine ⟨i - 1, segLoop_mem_acc _ _ _ _ _ _ ?_⟩
      simp

lemma segLoop_mem_marker (m : α → Option L) :
    ∀ (pages : List α) (k : Nat) (hk : k < pages.length) (p : L),
    m (pages.get ⟨k, hk⟩) = some p →
    ∀ (i : Nat) (cur : Option (Nat × L)) (acc : List (Span L)),
    ∃ e, (⟨i + k, e, p⟩ : Span L) ∈ segLoop m pages i cur acc := by
  intro pages
  induction pages with
  | nil =>
    intro k hk
    exact absurd hk (by simp)
  | cons t rest ih =>
    intro k hk p hp i cur acc
    cases k with
    | zero =>
      have hm : m t = some p := hp
      cases cur with
      | none =>
        simp only [segLoop, hm, Nat.add_zero]
        exact segLoop_mem_cur m rest (i + 1) i p acc
      | some sl =>
        cases sl with
        | mk s l =>
          simp only [segLoop, hm, Nat.add_zero]
          exact segLoop_mem_cur m rest (i + 1) i p _
    | succ k' =>
      have hk' : k' < rest.length := by simp at hk; omega
      have hp' : m (rest.get ⟨k', hk'⟩) = some p := hp
      have harith : i + 1 + k' = i + (k' + 1) := by omega
      cases hm : m t with
      | none =>
        simp only [segLoop, hm]
        have := ih k' hk' p hp' (i + 1) cur acc
        rwa [harith] at this
      | some q =>
        cases cur with
        | none =>
          simp only [segLoop, hm]
          have := ih k' hk' p hp' (i + 1) (some (i, q)) acc
          rwa [harith] at this
        | some sl =>
          cases sl with
          | mk s l =>
            simp only [segLoop, hm]
            have := ih k' hk' p hp' (i + 1) (some (i, q)) (acc ++ [⟨s, i - 1, l⟩])
            rwa [harith] at this

/-- C2 amended: in businessTools.py, a page on which the required field(s)
are detected always opens a new span whose label is exactly the detected
value — in particular even when that value equals the immediately preceding
span's label the page still starts its own span (no merging at the span
level).  The original claim's further assertion that two adjacent
identically-labeled spans become two separate output documents fails: see
the counterexample on singlePDF_MultiExtraction_PartyName.py, which groups
same-labeled ranges into one merged output. -/
theorem c2_marker_opens_new_span :
    (∀ (doc : List Page) (kw : String) (off : Int) (k : Nat) (p : String),
      k < doc.length →
      partyMarker kw off (pageGetText (doc.getD k ⟨"", ""⟩)) = some p →
      ∃ e, (⟨k, e, p⟩ : Span String) ∈ split_pdf_by_party_name doc kw off) ∧
    (∀ (doc : List Page) (kw : String) (off : Int) (okw : String)
      (pat : String → Option String) (k : Nat) (pr : String × String),
      k < doc.length →
      orderMarker kw off okw pat (pageGetText (doc.getD k ⟨"", ""⟩)) = some pr →
      ∃ e, (⟨k, e, pr⟩ : Span (String × String)) ∈
        extract_pdf_by_order_id doc kw off okw pat) := by
  constructor
  · intro doc kw off k p hk hp
    rw [getD_of_lt doc k _ hk] at hp
    have := segLoop_mem_marker (fun pg => partyMarker kw off (pageGetText pg))
      doc k hk p hp 0 none []
    simpa using this
  · intro doc kw off okw pat k pr hk hp
    rw [getD_of_lt doc k _ hk] at hp
    have := segLoop_mem_marker (fun pg => orderMarker kw off okw pat (pageGetText pg))
      doc k hk pr hp 0 none []
    simpa using this


/-- Witness for C2: on a document whose pages 0 and 1 both detect the party
name "A", each of the two pages opens its own span labeled "A" in
businessTools.py's split_pdf_by_party_name. -/
theorem c2_marker_opens_new_span_witness :
    (∃ e, (⟨0, e, "A"⟩ : Span String) ∈ split_pdf_by_party_name docAA "M/s." (-1)) ∧
    (∃ e, (⟨1, e, "A"⟩ : Span String) ∈ split_pdf_by_party_name docAA "M/s." (-1)) ∧
    (∃ e, (⟨0, e, ("A", "11")⟩ : Span (String × String)) ∈
      extract_pdf_by_order_id doc3 "M/s." (-1) "ID :" defaultOrderPat) := by
  refine ⟨?_, ?_, ?_⟩
  · exact c2_marker_opens_new_span.1 docAA "M/s." (-1) 0 "A" (by decide) (by decide)
  · exact c2_marker_opens_new_span.1 docAA "M/s." (-1) 1 "A" (by decide) (by decide)
  · exact c2_marker_opens_new_span.2 doc3 "M/s." (-1) "ID :" defaultOrderPat 0
      ("A", "11") (by decide) (by decide)

/-- Counterexample to C2 as stated: in
singlePDF_MultiExtraction_PartyName.py, a 2-page document whose pages both
detect party name "A" yields two spans, ranges (0,0) and (1,1), but
save_split_pdfs groups them under the single dict key "A" and writes ONE
merged output document "A.pdf" containing both pages — not two separate
output documents. -/
theorem c2_counterexample_singlePDF_merges :
    sp_split_pdf_by_party_name ["A\nM/s. x", "A\nM/s. x"] = [("A", [(0, 0), (1, 1)])] ∧
    save_split_pdfs (sp_split_pdf_by_party_name ["A\nM/s. x", "A\nM/s. x"]) =
      [("A.pdf", [0, 1])] ∧
    (save_split_pdfs (sp_split_pdf_by_party_name ["A\nM/s. x", "A\nM/s. x"])).length = 1 := by
  refine ⟨by decide, by decide, by decide⟩

lemma segLoop_congr (m : α → Option L) (m' : β → Option L) :
    ∀ (pages : List α) (pages' : List β), pages.map m = pages'.map m' →
    ∀ (i : Nat) (cur : Option (Nat × L)) (acc : List (Span L)),
    segLoop m pages i cur acc = segLoop m' pages' i cur acc := by
  intro pages
  induction pages with
  | nil =>
    intro pages' h i cur acc
    cases pages' with
    | nil => rfl
    | cons t' rest' => simp at h
  | cons t rest ih =>
    intro pages' h i cur acc
    cases pages' with
    | nil => simp at h
    | cons t' rest' =>
      simp only [List.map_cons, List.cons.injEq] at h
      obtain ⟨h1, h2⟩ := h
      cases hm : m t with
      | none =>
        have hm' : m' t' = none := by rw [← h1, hm]
        simp only [segLoop, hm, hm']
        exact ih rest' h2 (i + 1) cur acc
      | some p =>
        have hm' : m' t' = some p := by rw [← h1, hm]
        cases cur with
        | none =>
          simp only [segLoop, hm, hm']
          exact ih rest' h2 (i + 1) (some (i, p)) acc
        | some sl =>
          cases sl with
          | mk s l =>
            simp only [segLoop, hm, hm']
            exact ih rest' h2 (i + 1) (some (i, p)) (acc ++ [⟨s, i - 1, l⟩])

lemma partyAux_eq_find (lines : List String) (kw : String) (off : Int) :
    ∀ (suffix : List String) (i : Nat),
    partyAux lines kw off suffix i =
    ((List.enumFrom i suffix).find? (fun e =>
        strContains e.2 kw && inRangeB ((e.1 : Int) + off) lines.length)).map
      (fun e => pyStrip (lines.getD ((e.1 : Int) + off).toNat "")) := by
  intro suffix
  induction suffix with
  | nil => intro i; rfl
  | cons l rest ih =>
    intro i
    cases hc : strContains l kw with
    | false =>
      simp only [partyAux, hc, Bool.false_eq_true, if_false, List.enumFrom]
      rw [List.find?_cons_of_neg]
      · exact ih (i + 1)
      · simp [hc]
    | true =>
      cases hr : inRangeB ((i : Int) + off) lines.length with
      | false =>
        simp only [partyAux, hc, hr, Bool.false_eq_true, if_false, if_true,
          List.enumFrom]
        rw [List.find?_cons_of_neg]
        · exact ih (i + 1)
        · simp [hc, hr]
      | true =>
        simp only [partyAux, hc, hr, if_true, List.enumFrom]
        rw [List.find?_cons_of_pos]
        · rfl
        · simp [hc, hr]

lemma extract_party_eq_find (text kw : String) (off : Int) :
    extract_party_name_dynamic text kw off =
    ((pySplitlines text).enum.find? (fun e =>
        strContains e.2 kw &&
        inRangeB ((e.1 : Int) + off) (pySplitlines text).length)).map
      (fun e => pyStrip ((pySplitlines text).getD ((e.1 : Int) + off).toNat "")) := by
  have h := partyAux_eq_find (pySplitlines text) kw off (pySplitlines text) 0
  simpa [extract_party_name_dynamic, List.enum] using h

/-- C4 amended: the offset-rule party extractor is total (never errors) and
returns the stripped line at `i + offset` for the FIRST keyword-containing
line `i` whose offset target lies in the text's line range; when no
keyword-containing line has an in-range target (in particular when the
offset points outside the range at every keyword match, or no line contains
the keyword) it returns "not found".  The original claim's assertion that
the first keyword match alone decides the outcome fails: a first match with
an out-of-range target does not stop the scan (see the counterexample). -/
theorem c4_offset_rule_characterization (text kw : String) (off : Int) :
    extract_party_name_dynamic text kw off =
    ((pySplitlines text).enum.find? (fun e =>
        strContains e.2 kw &&
        inRangeB ((e.1 : Int) + off) (pySplitlines text).length)).map
      (fun e => pyStrip ((pySplitlines text).getD ((e.1 : Int) + off).toNat "")) :=
  extract_party_eq_find text kw off

/-- Counterexample to C4 as stated: on the two-line text "M/s. A\nM/s. B"
with keyword "M/s." and offset -1, the first keyword match is line 0, whose
offset target -1 is out of range, so per the claim the extractor should
return "not found"; the code instead continues scanning, matches line 1,
and returns line 0, i.e. "M/s. A". -/
theorem c4_counterexample_first_match_not_decisive :
    extract_party_name_dynamic "M/s. A\nM/s. B" "M/s." (-1) = some "M/s. A" ∧
    claimPartyExtract "M/s. A\nM/s. B" "M/s." (-1) = none :=
  ⟨by decide, by decide⟩

lemma find_enumFrom_first (p : Nat → String → Bool) :
    ∀ (l : List String) (k i : Nat), i < l.length →
    p (k + i) (l.getD i "") = true →
    (∀ j, j < i → p (k + j) (l.getD j "") = false) →
    (List.enumFrom k l).find? (fun e => p e.1 e.2) = some (k + i, l.getD i "") := by
  intro l
  induction l with
  | nil =>
    intro k i hi
    exact absurd hi (by simp)
  | cons a t ih =>
    intro k i hi hp hf
    cases i with
    | zero =>
      simp only [List.enumFrom]
      rw [List.find?_cons_of_pos]
      · rfl
      · simpa using hp
    | succ i' =>
      have h0 : p k a = false := by simpa using hf 0 (by omega)
      simp only [List.enumFrom]
      rw [List.find?_cons_of_neg]
      · have hi' : i' < t.length := by simp at hi; omega
        have harith : k + 1 + i' = k + (i' + 1) := by omega
        have hp' : p (k + 1 + i') (t.getD i' "") = true := by rw [harith]; exact hp
        have hf' : ∀ j, j < i' → p (k + 1 + j) (t.getD j "") = false := by
          intro j hj
          have harj : k + 1 + j = k + (j + 1) := by omega
          rw [harj]
          exact hf (j + 1) (by omega)
        have := ih (k + 1) i' hi' hp' hf'
        rw [this, harith]
        rfl
      · simpa using h0

lemma extract_party_empty (kw : String) (off : Int) :
    extract_party_name_dynamic "" kw off = none := rfl

/-- C9: when the line at the first in-range keyword match plus offset is
empty or whitespace-only, the party extractor returns the empty string
(Python: a falsy value), and the segmentation engine treats such a page as
carrying no marker: replacing it by a completely blank page changes nothing
in the emitted spans, so it neither opens a new span nor closes the open
one, and no span with an empty label is ever produced. -/
theorem c9_blank_target_is_no_marker :
    (∀ (text kw : String) (off : Int) (i : Nat),
      i < (pySplitlines text).length →
      (strContains ((pySplitlines text).getD i "") kw &&
        inRangeB ((i : Int) + off) (pySplitlines text).length) = true →
      (∀ j, j < i →
        (strContains ((pySplitlines text).getD j "") kw &&
          inRangeB ((j : Int) + off) (pySplitlines text).length) = false) →
      pyStrip ((pySplitlines text).getD ((i : Int) + off).toNat "") = "" →
      extract_party_name_dynamic text kw off = some "") ∧
    (∀ (kw : String) (off : Int) (pg : Page) (pre post : List Page),
      extract_party_name_dynamic (pageGetText pg) kw off = some "" →
      split_pdf_by_party_name (pre ++ pg :: post) kw off =
      split_pdf_by_party_name (pre ++ ⟨"", ""⟩ :: post) kw off) := by
  constructor
  · intro text kw off i hi hp hf hstrip
    rw [extract_party_eq_find]
    have hfind := find_enumFrom_first
      (fun n s => strContains s kw && inRangeB ((n : Int) + off) (pySplitlines text).length)
      (pySplitlines text) 0 i hi (by simpa using hp)
      (by intro j hj; simpa using hf j hj)
    simp only [Nat.zero_add] at hfind
    rw [show (pySplitlines text).enum = List.enumFrom 0 (pySplitlines text) from rfl]
    rw [hfind]
    simp only [Option.map_some']
    exact congrArg some hstrip
  · intro kw off pg pre post hpg
    have hmg : partyMarker kw off (pageGetText pg) = none := by
      simp [partyMarker, hpg, truthyStr]
    have hmb : partyMarker kw off (pageGetText (⟨"", ""⟩ : Page)) = none := by
      simp [partyMarker, pageGetText, extract_party_empty, truthyStr]
    show segSpans _ _ = segSpans _ _
    apply segLoop_congr
    simp only [List.map_append, List.map_cons]
    rw [hmg, hmb]

/-- Witness for C9: on the page text "\nM/s. X" (keyword on line 1, offset
-1 pointing at the empty line 0) the extractor returns the empty string, and
sandwiched between two marker pages such a page leaves the spans exactly as
a blank page would. -/
theorem c9_blank_target_is_no_marker_witness :
    extract_party_name_dynamic "\nM/s. X" "M/s." (-1) = some "" ∧
    split_pdf_by_party_name
        [⟨"A\nM/s. a", ""⟩, ⟨"\nM/s. X", ""⟩, ⟨"B\nM/s. b", ""⟩] "M/s." (-1) =
      split_pdf_by_party_name
        [⟨"A\nM/s. a", ""⟩, ⟨"", ""⟩, ⟨"B\nM/s. b", ""⟩] "M/s." (-1) := by
  constructor
  · exact c9_blank_target_is_no_marker.1 "\nM/s. X" "M/s." (-1) 1
      (by decide) (by decide) (by decide) (by decide)
  · exact c9_blank_target_is_no_marker.2 "M/s." (-1) ⟨"\nM/s. X", ""⟩
      [⟨"A\nM/s. a", ""⟩] [⟨"B\nM/s. b", ""⟩] (by decide)

lemma orderScan_skip (x : String) (ls : List String)
    (h : pyStrip x = "" ∨ pyStrip x = ":") :
    orderScan (x :: ls) = orderScan ls := by
  rcases h with h | h
  · simp [orderScan, h]
  · simp [orderScan, h]

lemma orderScan_stop (c : String) (rest : List String)
    (h1 : ¬ pyStrip c = "") (h2 : ¬ pyStrip c = ":") :
    orderScan (c :: rest) =
    (if isDigitStr (pyStrip c) = true then some (pyStrip c)
      else firstDigitRun (pyStrip c)) := by
  simp only [orderScan, h1, h2, if_false]
  by_cases hd : isDigitStr (pyStrip c) = true
  · simp [hd]
  · simp only [hd, if_false, Bool.false_eq_true]
    cases firstDigitRun (pyStrip c) <;> simp

lemma orderLoop_keyword_step (kw : String) (pat : String → Option String)
    (l : String) (rest : List String) :
    ∀ (pre : List String), (∀ x ∈ pre, strContains x kw = false) →
    strContains l kw = true → pat l = none →
    orderLoop kw pat (pre ++ l :: rest) =
    (match orderScan rest with
      | some v => some v
      | none => orderLoop kw pat rest) := by
  intro pre
  induction pre with
  | nil =>
    intro _ hl hpat
    simp only [List.nil_append, orderLoop, hl, if_true, hpat]
  | cons x pre' ih =>
    intro hpre hl hpat
    have hx : strContains x kw = false := hpre x (by simp)
    simp only [List.cons_append, orderLoop, hx, Bool.false_eq_true, if_false]
    exact ih (fun y hy => hpre y (by simp [hy])) hl hpat

/-- C3 amended: the adjacent-line fallback scan of the order-id extractor
skips exactly the lines that strip to the empty string or to a single colon
(not punctuation-only lines in general), and stops at the first other line
regardless of whether it yields a usable value: the scan's result is fully
determined by the lines up to and including that stopping line (no unbounded
lookahead).  When the scan stops without a value after a keyword line, the
extractor does not give up but continues with the following lines, so a
value can still be returned from a LATER keyword-containing line (third
conjunct); within one scan, however, nothing past the stopping line is
ever returned. -/
theorem c3_bounded_fallback_scan :
    (∀ (x : String) (ls : List String), pyStrip x = "" ∨ pyStrip x = ":" →
      orderScan (x :: ls) = orderScan ls) ∧
    (∀ (c : String) (rest rest' : List String),
      ¬ pyStrip c = "" → ¬ pyStrip c = ":" →
      orderScan (c :: rest) = orderScan (c :: rest')) ∧
    (∀ (kw : String) (pat : String → Option String) (l : String)
      (rest pre : List String), (∀ x ∈ pre, strContains x kw = false) →
      strContains l kw = true → pat l = none →
      orderLoop kw pat (pre ++ l :: rest) =
      (match orderScan rest with
        | some v => some v
        | none => orderLoop kw pat rest)) := by
  refine ⟨orderScan_skip, ?_, ?_⟩
  · intro c rest rest' h1 h2
    rw [orderScan_stop c rest h1 h2, orderScan_stop c rest' h1 h2]
  · intro kw pat l rest pre hpre hl hpat
    exact orderLoop_keyword_step kw pat l rest pre hpre hl hpat

/-- Witness for C3: a colon-only line is skipped; a prose line "abc" stops
the scan no matter what follows it; and after a failed scan on the first
keyword line the extractor moves on to the lines below it. -/
theorem c3_bounded_fallback_scan_witness :
    orderScan [" : ", "77"] = orderScan ["77"] ∧
    orderScan ["abc", "55"] = orderScan ["abc"] ∧
    orderLoop "ID :" defaultOrderPat (["hello"] ++ "ID : x" :: ["pq", "ID : 9"]) =
      (match orderScan ["pq", "ID : 9"] with
        | some v => some v
        | none => orderLoop "ID :" defaultOrderPat ["pq", "ID : 9"]) := by
  refine ⟨?_, ?_, ?_⟩
  · exact c3_bounded_fallback_scan.1 " : " ["77"] (by decide)
  · exact c3_bounded_fallback_scan.2.1 "abc" ["55"] [] (by decide) (by decide)
  · exact c3_bounded_fallback_scan.2.2 "ID :" defaultOrderPat "ID : x"
      ["pq", "ID : 9"] ["hello"] (by decide) (by decide) (by decide)

/-- Counterexample to C3 as stated: in the text "ID :\n--\n123" the line
"--" consists solely of punctuation, so per the claim the scan should skip
it and return "123" from the next line; the code only skips lines equal to
":" (and empty lines), so "--" stops the scan and the extractor returns
nothing. -/
theorem c3_counterexample_punct_line_stops :
    extract_order_id_dynamic "ID :\n--\n123" "ID :" defaultOrderPat = none ∧
    claimOrderExtract "ID :\n--\n123" "ID :" defaultOrderPat = some "123" :=
  ⟨by decide, by decide⟩

lemma orderLoop_pat_congr (kw : String) (pat pat' : String → Option String)
    (h : ∀ l, strContains l kw = true → pat l = pat' l) :
    ∀ ls : List String, orderLoop kw pat ls = orderLoop kw pat' ls := by
  intro ls
  induction ls with
  | nil => rfl
  | cons l rest ih =>
    cases hc : strContains l kw with
    | false =>
      simp only [orderLoop, hc, Bool.false_eq_true, if_false]
      exact ih
    | true =>
      simp only [orderLoop, hc, if_true]
      rw [← h l hc]
      cases hpl : pat l with
      | some v => rfl
      | none =>
        cases hs : orderScan rest with
        | some v => rfl
        | none => simp only []; exact ih

/-- C10: the adjacent-line fallback of the order-id extractor never applies
the configured regex pattern: two configurations whose patterns agree on all
keyword-containing lines extract identical order ids on every text (first
conjunct), and the scan's value at its stopping line is the line itself when
it is all digits, else the line's first contiguous digit run found by the
fixed pattern for a digit run (second conjunct). -/
theorem c10_fallback_ignores_configured_pattern :
    (∀ (text okw : String) (pat pat' : String → Option String),
      (∀ l, strContains l okw = true → pat l = pat' l) →
      extract_order_id_dynamic text okw pat = extract_order_id_dynamic text okw pat') ∧
    (∀ (c : String) (rest : List String),
      ¬ pyStrip c = "" → ¬ pyStrip c = ":" →
      orderScan (c :: rest) =
      (if isDigitStr (pyStrip c) = true then some (pyStrip c)
        else firstDigitRun (pyStrip c))) := by
  constructor
  · intro text okw pat pat' h
    exact orderLoop_pat_congr okw pat pat' h (pySplitlines text)
  · exact orderScan_stop

/-- Witness for C10: changing the pattern away from keyword lines (here: a
pattern that answers "999" on lines not containing "ID :") does not change
the extraction on a text whose order id comes from the fallback line; and on
the stopping line "x42y" the scan returns the digit run "42". -/
theorem c10_fallback_ignores_configured_pattern_witness :
    extract_order_id_dynamic "ID :\nx42y" "ID :" defaultOrderPat =
      extract_order_id_dynamic "ID :\nx42y" "ID :"
        (fun l => bif strContains l "ID :" then defaultOrderPat l else some "999") ∧
    orderScan ["x42y", "888"] =
      (if isDigitStr (pyStrip "x42y") = true then some (pyStrip "x42y")
        else firstDigitRun (pyStrip "x42y")) := by
  constructor
  · exact c10_fallback_ignores_configured_pattern.1 "ID :\nx42y" "ID :"
      defaultOrderPat
      (fun l => bif strContains l "ID :" then defaultOrderPat l else some "999")
      (fun l h => by simp [h])
  · exact c10_fallback_ignores_configured_pattern.2 "x42y" ["888"]
      (by decide) (by decide)

lemma extract_text_characterization :
    ∀ doc : List Page, extract_text_from_pdf doc =
    ((doc.map (fun p => if pyStrip p.directText = "" then p.ocrText else p.directText)).foldr
        (fun a b => a ++ b) "",
      (doc.filter (fun p => pyStrip p.directText == "")).length) := by
  intro doc
  induction doc with
  | nil => rfl
  | cons p rest ih =>
    by_cases h : pyStrip p.directText = ""
    · simp [extract_text_from_pdf, h, ih]
    · simp [extract_text_from_pdf, h, ih]

/-- C5 amended: the OCR fallback exists only in the text-extraction
operation: there, extract_text_from_pdf uses, per page, the direct text
layer when it strips to something nonempty and otherwise the OCR output,
invoking OCR exactly once per blank-direct page (the counter in the first
conjunct).  The segmentation engine, by contrast, never invokes OCR: the
spans of split_pdf_by_party_name and extract_pdf_by_order_id depend only on
the pages' direct text layers, so the field extractors run on the raw
(possibly empty) direct text and never on OCR output. -/
theorem c5_ocr_fallback_only_in_text_extraction :
    (∀ doc : List Page, extract_text_from_pdf doc =
      ((doc.map (fun p =>
          if pyStrip p.directText = "" then p.ocrText else p.directText)).foldr
          (fun a b => a ++ b) "",
        (doc.filter (fun p => pyStrip p.directText == "")).length)) ∧
    (∀ (doc doc' : List Page) (kw : String) (off : Int) (okw : String)
      (pat : String → Option String),
      doc.map Page.directText = doc'.map Page.directText →
      split_pdf_by_party_name doc kw off = split_pdf_by_party_name doc' kw off ∧
      extract_pdf_by_order_id doc kw off okw pat =
        extract_pdf_by_order_id doc' kw off okw pat) := by
  constructor
  · exact extract_text_characterization
  · intro doc doc' kw off okw pat h
    constructor
    · apply segLoop_congr
      have e1 : doc.map (fun pg => partyMarker kw off (pageGetText pg)) =
          (doc.map Page.directText).map (partyMarker kw off) := by
        rw [List.map_map]; rfl
      have e2 : doc'.map (fun pg => partyMarker kw off (pageGetText pg)) =
          (doc'.map Page.directText).map (partyMarker kw off) := by
        rw [List.map_map]; rfl
      rw [e1, e2, h]
    · apply segLoop_congr
      have e1 : doc.map (fun pg => orderMarker kw off okw pat (pageGetText pg)) =
          (doc.map Page.directText).map (orderMarker kw off okw pat) := by
        rw [List.map_map]; rfl
      have e2 : doc'.map (fun pg => orderMarker kw off okw pat (pageGetText pg)) =
          (doc'.map Page.directText).map (orderMarker kw off okw pat) := by
        rw [List.map_map]; rfl
      rw [e1, e2, h]


/-- Witness for C5: a two-page document where page 0 has a blank direct
layer (one OCR call, its OCR text used) and page 1 has direct text; and two
documents that differ only in their pages' OCR texts produce identical
spans. -/
theorem c5_ocr_fallback_only_in_text_extraction_witness :
    extract_text_from_pdf docOcr =
      ((docOcr.map (fun p =>
          if pyStrip p.directText = "" then p.ocrText else p.directText)).foldr
          (fun a b => a ++ b) "",
        (docOcr.filter (fun p => pyStrip p.directText == "")).length) ∧
    split_pdf_by_party_name [⟨"", "A\nM/s. x"⟩, ⟨"B\nM/s. b", "zz"⟩] "M/s." (-1) =
      split_pdf_by_party_name [⟨"", ""⟩, ⟨"B\nM/s. b", ""⟩] "M/s." (-1) := by
  constructor
  · exact c5_ocr_fallback_only_in_text_extraction.1 docOcr
  · exact (c5_ocr_fallback_only_in_text_extraction.2
      [⟨"", "A\nM/s. x"⟩, ⟨"B\nM/s. b", "zz"⟩] [⟨"", ""⟩, ⟨"B\nM/s. b", ""⟩]
      "M/s." (-1) "ID :" defaultOrderPat (by decide)).1

/-- Counterexample to C5 as stated: a one-page document whose page has an
empty direct text layer but whose OCR text carries the party marker "A".
Per the claim the OCR output would be this page's text before the field
extractors run, so the engine would detect "A" and emit a span; the code
runs the extractors on the empty direct text and emits no span at all. -/
theorem c5_counterexample_segmentation_skips_ocr :
    split_pdf_by_party_name [⟨"", "A\nM/s. x"⟩] "M/s." (-1) = [] ∧
    partyMarker "M/s." (-1) "A\nM/s. x" = some "A" :=
  ⟨by decide, by decide⟩

lemma beq_false_of_ne {a b : String} (h : ¬ a = b) : (a == b) = false := by
  cases hbe : (a == b) with
  | true => exact absurd (eq_of_beq hbe) h
  | false => rfl

lemma lookup_map_repl_ne (nm name : String) (v : List Nat) (hne : ¬ name = nm) :
    ∀ fs : List (String × List Nat),
    (fs.map (fun e => if e.1 == nm then (e.1, v) else e)).lookup name =
    fs.lookup name := by
  intro fs
  induction fs with
  | nil => rfl
  | cons e fs' ih =>
    obtain ⟨k, b⟩ := e
    simp only [List.map_cons]
    by_cases hk : (k == nm) = true
    · have hkeq : k = nm := eq_of_beq hk
      have hnk : (name == k) = false := beq_false_of_ne (by rw [hkeq]; exact hne)
      rw [if_pos hk]
      simp only [List.lookup, hnk]
      exact ih
    · rw [if_neg hk]
      simp only [List.lookup]
      cases hnk : (name == k) with
      | true => rfl
      | false => exact ih

lemma lookup_map_repl_eq (nm : String) (v : List Nat) :
    ∀ fs : List (String × List Nat), fs.any (fun e => e.1 == nm) = true →
    (fs.map (fun e => if e.1 == nm then (e.1, v) else e)).lookup nm = some v := by
  intro fs
  induction fs with
  | nil => intro h; simp at h
  | cons e fs' ih =>
    obtain ⟨k, b⟩ := e
    intro h
    simp only [List.map_cons]
    by_cases hk : (k == nm) = true
    · have hkeq : k = nm := eq_of_beq hk
      have hnk : (nm == k) = true := by rw [hkeq]; exact beq_self_eq_true nm
      rw [if_pos hk]
      simp only [List.lookup, hnk]
    · have hkf : (k == nm) = false := by simpa using hk
      have hkne : ¬ k = nm := by simpa using hk
      have h' : fs'.any (fun e => e.1 == nm) = true := by
        simpa [List.any_cons, hkf] using h
      have hnk : (nm == k) = false := beq_false_of_ne (fun he => hkne he.symm)
      rw [if_neg hk]
      simp only [List.lookup, hnk]
      exact ih h'

lemma lookup_none_of_any_false (nm : String) :
    ∀ fs : List (String × List Nat), fs.any (fun e => e.1 == nm) = false →
    fs.lookup nm = none := by
  intro fs
  induction fs with
  | nil => intro _; rfl
  | cons e fs' ih =>
    obtain ⟨k, b⟩ := e
    intro h
    simp only [List.any_cons, Bool.or_eq_false_iff] at h
    have hkne : ¬ k = nm := by simpa using h.1
    have hnk : (nm == k) = false := beq_false_of_ne (fun he => hkne he.symm)
    simp only [List.lookup, hnk]
    exact ih h.2

lemma lookup_append_split (name : String) :
    ∀ fs gs : List (String × List Nat),
    (fs ++ gs).lookup name =
    (match fs.lookup name with
      | some v => some v
      | none => gs.lookup name) := by
  intro fs gs
  induction fs with
  | nil => rfl
  | cons e fs' ih =>
    obtain ⟨k, b⟩ := e
    cases hnk : (name == k) with
    | true => simp [List.lookup, hnk]
    | false => simp [List.lookup, hnk, ih]

lemma lookup_fsWrite (fs : List (String × List Nat)) (nm name : String)
    (v : List Nat) :
    (fsWrite fs nm v).lookup name =
    (if name = nm then some v else fs.lookup name) := by
  unfold fsWrite
  by_cases ha : fs.any (fun e => e.1 == nm) = true
  · simp only [ha, if_true]
    by_cases hne : name = nm
    · subst hne
      rw [if_pos rfl]
      exact lookup_map_repl_eq name v fs ha
    · rw [if_neg hne]
      exact lookup_map_repl_ne nm name v hne fs
  · have haf : fs.any (fun e => e.1 == nm) = false := by
      cases hv : fs.any (fun e => e.1 == nm) with
      | true => exact absurd hv ha
      | false => rfl
    simp only [haf, Bool.false_eq_true, if_false]
    rw [lookup_append_split]
    by_cases hne : name = nm
    · subst hne
      rw [lookup_none_of_any_false name fs haf, if_pos rfl]
      simp [List.lookup]
    · rw [if_neg hne]
      have hl : List.lookup name [(nm, v)] = none := by
        have hnk : (name == nm) = false := beq_false_of_ne hne
        simp [List.lookup, hnk]
      cases hfl : fs.lookup name with
      | some w => rfl
      | none => simpa using hl

lemma find?_append_split (p : α → Bool) :
    ∀ l₁ l₂ : List α, (l₁ ++ l₂).find? p =
    (match l₁.find? p with
      | some x => some x
      | none => l₂.find? p) := by
  intro l₁ l₂
  induction l₁ with
  | nil => rfl
  | cons a t ih =>
    cases hp : p a with
    | true =>
      simp only [List.cons_append]
      rw [List.find?_cons_of_pos _ hp, List.find?_cons_of_pos _ hp]
    | false =>
      simp only [List.cons_append]
      rw [List.find?_cons_of_neg _ (by simp [hp]), List.find?_cons_of_neg _ (by simp [hp])]
      exact ih

lemma saveAll_lookup (f : L → String) :
    ∀ (spans : List (Span L)) (fs : List (String × List Nat)) (name : String),
    (saveAll f spans fs).lookup name =
    (match spans.reverse.find? (fun sp => f sp.label == name) with
      | some sp => some (spanPages sp)
      | none => fs.lookup name) := by
  intro spans
  induction spans with
  | nil => intro fs name; rfl
  | cons sp rest ih =>
    intro fs name
    show (saveAll f rest (fsWrite fs (f sp.label) (spanPages sp))).lookup name = _
    rw [ih]
    rw [List.reverse_cons, find?_append_split]
    cases hf : rest.reverse.find? (fun sp' => f sp'.label == name) with
    | some sp' => rfl
    | none =>
      rw [lookup_fsWrite]
      by_cases he : name = f sp.label
      · have hp : (f sp.label == name) = true := by simp [he]
        simp only [List.find?, hp, if_pos he]
      · have hp : (f sp.label == name) = false := beq_false_of_ne (fun hh => he hh.symm)
        simp only [List.find?, hp, if_neg he]

/-- C6 amended: there is no collision resolution of any kind: each span is
saved under sanitize(label).pdf, computed from the label alone, with no
check against names already emitted in the run or present on disk.  Spans
whose labels sanitize to the same base name are therefore written to the
SAME path, the later save overwriting the earlier: after the save loop the
file under a given name holds the pages of the LAST span bearing that name,
so N same-named spans yield one file, not N distinct file names. -/
theorem c6_no_collision_resolution :
    (∀ (spans : List (Span String)) (name : String),
      (saveAll splitFilename spans []).lookup name =
      (match spans.reverse.find? (fun sp => splitFilename sp.label == name) with
        | some sp => some (spanPages sp)
        | none => none)) ∧
    (∀ (spans : List (Span (String × String))) (name : String),
      (saveAll extractFilename spans []).lookup name =
      (match spans.reverse.find? (fun sp => extractFilename sp.label == name) with
        | some sp => some (spanPages sp)
        | none => none)) := by
  constructor
  · intro spans name
    rw [saveAll_lookup]
    cases spans.reverse.find? (fun sp => splitFilename sp.label == name) <;> rfl
  · intro spans name
    rw [saveAll_lookup]
    cases spans.reverse.find? (fun sp => extractFilename sp.label == name) <;> rfl

/-- Counterexample to C6: on a document producing two spans both labeled
"A", both output file names are "A.pdf" — no `_2` suffix is ever generated —
and after the save loop a single file exists, holding only the pages of the
second span: the run does not produce two distinct output names. -/
theorem c6_counterexample_no_suffix :
    (split_pdf_by_party_name docAA "M/s." (-1)).map
        (fun sp => splitFilename sp.label) = ["A.pdf", "A.pdf"] ∧
    saveAll splitFilename (split_pdf_by_party_name docAA "M/s." (-1)) [] =
      [("A.pdf", [1])] :=
  ⟨by decide, by decide⟩

lemma processOp_characterization (msg : String → String) :
    ∀ files : List InputFile,
    processOp msg files =
    (match (files.filter (fun f => endsWithPdf f.name)).find?
        (fun f => f.doc.isNone) with
      | some f => Except.error f.name
      | none => Except.ok ((files.filter (fun f => endsWithPdf f.name)).map
          (fun f => msg f.name))) := by
  intro files
  induction files with
  | nil => rfl
  | cons f rest ih =>
    by_cases hp : endsWithPdf f.name = true
    · simp only [processOp, hp, if_true, List.filter_cons]
      cases hd : f.doc with
      | none =>
        have hn : f.doc.isNone = true := by rw [hd]; rfl
        simp only [List.find?, hn]
      | some d =>
        have hn : f.doc.isNone = false := by rw [hd]; rfl
        simp only [List.find?, hn, ih]
        cases hfind : (rest.filter (fun f => endsWithPdf f.name)).find?
            (fun f => f.doc.isNone) with
        | some g => rfl
        | none => rfl
    · have hpf : endsWithPdf f.name = false := by
        cases hv : endsWithPdf f.name with
        | true => exact absurd hv hp
        | false => rfl
      simp only [processOp, hpf, Bool.false_eq_true, if_false, List.filter_cons]
      exact ih

/-- C8 amended: the batch drivers contain no per-file error handling: a
batch returns one message per ".pdf" file only when every ".pdf" file in it
opens successfully; as soon as one ".pdf" file fails to open, the raised
exception propagates out of the driver (it is caught only at the excluded
UI layer), the messages collected so far are discarded, and the remaining
files of the batch are not processed. -/
theorem c8_open_failure_aborts_batch :
    (∀ files : List InputFile,
      process_split_operation files =
      (match (files.filter (fun f => endsWithPdf f.name)).find?
          (fun f => f.doc.isNone) with
        | some f => Except.error f.name
        | none => Except.ok ((files.filter (fun f => endsWithPdf f.name)).map
            (fun f => splitMsg f.name)))) ∧
    (∀ files : List InputFile,
      process_extract_operation files =
      (match (files.filter (fun f => endsWithPdf f.name)).find?
          (fun f => f.doc.isNone) with
        | some f => Except.error f.name
        | none => Except.ok ((files.filter (fun f => endsWithPdf f.name)).map
            (fun f => extractMsg f.name)))) :=
  ⟨processOp_characterization splitMsg, processOp_characterization extractMsg⟩

/-- Counterexample to C8 as stated: in the batch [a.pdf (opens), b.pdf
(open fails), c.pdf (opens)] both drivers return the propagated exception
for b.pdf: the failure does not become a message in a result list, a.pdf's
message is discarded, and c.pdf is never processed — the batch is aborted
rather than continued. -/
theorem c8_counterexample_batch_aborts :
    process_split_operation
        [⟨"a.pdf", some []⟩, ⟨"b.pdf", none⟩, ⟨"c.pdf", some []⟩] =
      Except.error "b.pdf" ∧
    process_extract_operation
        [⟨"a.pdf", some []⟩, ⟨"b.pdf", none⟩, ⟨"c.pdf", some []⟩] =
      Except.error "b.pdf" :=
  ⟨rfl, rfl⟩

end BTools
